import Mathlib

/-!
Verification development for the safe cross-language rename pipeline.

The definitions below are a shallow embedding of the TypeScript sources:
`src/rename/rename-orchestrator.ts`, `src/rename/python-renamer.ts`,
`src/rename/go-renamer.ts`, `src/llm/client.ts`, `src/llm/config.ts`,
`src/llm/schema.ts` and the diff parsing module (`parseDiff`,
`detectLanguage`).  JavaScript numbers used for confidence values, prices
and costs are modelled as rationals; string contents are modelled as
`List Char`; the file system is modelled as a partial map from path to
content.  External effects (file-system errors, the generative-model
endpoint, the language tools invoked by the backends) are parameters of
the embedded functions.
-/

set_option maxHeartbeats 1000000

/-- Safety block of a naming suggestion (`SafetySchema` in `schema.ts`). -/
structure Safety where
  isApiSurface : Bool
  shouldAutofix : Bool
  reason : String
deriving DecidableEq, Repr

/-- A naming suggestion as produced by the suggestion client
(`NamingSuggestionSchema` in `schema.ts`). -/
structure NamingSuggestion where
  oldName : String
  newName : String
  confidence : ℚ
  rationale : String
  safety : Safety
  alternatives : List String
deriving DecidableEq, Repr

/-- Outcome of a rename operation (`RenameResult` in `types/index.ts`). -/
structure RenameResult where
  success : Bool
  file : String
  oldName : String
  newName : String
  referencesUpdated : Nat
  error : Option String
deriving DecidableEq, Repr

/-- Safety gate from `rename-orchestrator.ts` (`shouldAutoRename`):
confidence at least 0.85, marked autofix-safe, and not API surface.
Rational literals are written with `mkRat` (`mkRat 85 100 = 0.85`) so
that the functions evaluate by kernel reduction. -/
def shouldAutoRename (suggestion : NamingSuggestion) : Bool :=
  if suggestion.confidence < mkRat 85 100 then false
  else if !suggestion.safety.shouldAutofix then false
  else if suggestion.safety.isApiSurface then false
  else true

/-- First character of the identifier regex `^[a-zA-Z_$][a-zA-Z0-9_$]*$`. -/
def isIdentStart (c : Char) : Bool :=
  c.isAlpha || c = '_' || c = '$'

/-- Later characters of the identifier regex. -/
def isIdentChar (c : Char) : Bool :=
  c.isAlphanum || c = '_' || c = '$'

/-- Test of the identifier regex `^[a-zA-Z_$][a-zA-Z0-9_$]*$` used by
`isValidSuggestion` in `schema.ts`. -/
def isValidIdentifier (s : String) : Bool :=
  match s.data with
  | [] => false
  | c :: rest => isIdentStart c && rest.all isIdentChar

/-- Quality check on a parsed suggestion (`isValidSuggestion` in
`schema.ts`): the rename must not be a no-op, confidence at least 0.3,
rationale at least 10 characters (the JS falsy check on an empty rationale
is subsumed by the length check), and the new name must be a valid
identifier. -/
def isValidSuggestion (suggestion : NamingSuggestion) : Bool :=
  if suggestion.oldName = suggestion.newName then false
  else if suggestion.confidence < mkRat 3 10 then false
  else if suggestion.rationale.length < 10 then false
  else if !isValidIdentifier suggestion.newName then false
  else true

/-! ## Word-boundary regex substitution

The fallback renamers build the JavaScript regex `\b<oldName>\b` with the
`g` flag, count its matches, and replace every match.  We model the JS
word-character class `\w = [A-Za-z0-9_]` and the `\b` zero-width boundary
exactly; the interpolated name is treated as a literal pattern (the
sources always interpolate a plain identifier). -/

/-- JavaScript regex word-character class `\w`. -/
def isWordChar (c : Char) : Bool := c.isAlphanum || c = '_'

/-- Whether an optional character is a word character (string edges count
as non-word). -/
def optIsWord : Option Char → Bool
  | some c => isWordChar c
  | none => false

/-- JS `\b`: a boundary lies between two (optional) characters exactly
when one side is a word character and the other is not. -/
def isWordBoundary (prev next : Option Char) : Bool :=
  optIsWord prev != optIsWord next

/-- Whether the literal pattern `pat`, wrapped in `\b ... \b`, matches at
the head of `s`, given the character immediately before `s`. -/
def wordMatchAt (pat : List Char) (prev : Option Char) (s : List Char) : Bool :=
  pat.isPrefixOf s
    && isWordBoundary prev s.head?
    && isWordBoundary pat.getLast? (s.drop pat.length).head?

/-- One step of the global scan of `\b pat \b` over a string, written with
an explicit fuel so that the recursion is structural (at every step at
least one character and exactly one unit of fuel are consumed, so
`fuel = s.length` always suffices).  Returns the number of
(non-overlapping, leftmost) matches together with the string obtained by
replacing every match with `repl`. -/
def replaceWordGo (pat repl : List Char) : Nat → Option Char → List Char → Nat × List Char
  | 0, _, s => (0, s)
  | _ + 1, _, [] => (0, [])
  | fuel + 1, prev, c :: rest =>
    if pat ≠ [] ∧ wordMatchAt pat prev (c :: rest) = true then
      let r := replaceWordGo pat repl fuel pat.getLast? ((c :: rest).drop pat.length)
      (r.1 + 1, repl ++ r.2)
    else
      let r := replaceWordGo pat repl fuel (some c) rest
      (r.1, c :: r.2)

/-- Global scan of `\b pat \b` over a string: the number of matches and
the string with every match replaced by `repl`.  This single scan models
both `content.match(regex)` (the count) and
`content.replace(regex, repl)`. -/
def replaceWordAll (pat repl : List Char) (prev : Option Char) (s : List Char) :
    Nat × List Char :=
  replaceWordGo pat repl s.length prev s

/-- Number of whole-word matches of `pat` in `s` (the `match(/\b..\b/g)`
count used by the renamers). -/
def countWordMatches (pat s : List Char) : Nat :=
  (replaceWordAll pat pat none s).1

/-- Fallback regex rename from `python-renamer.ts`
(`fallbackPythonRename`): count whole-word matches of the old name; zero
matches report failure with `Symbol not found`; otherwise replace all
matches and report that count as `referencesUpdated`.  The file content is
passed in and the rewritten content returned, modelling the
`readFile`/`writeFile` pair. -/
def fallbackPythonRename (filePath oldName newName : String)
    (content : List Char) : RenameResult × List Char :=
  let scan := replaceWordAll oldName.data newName.data none content
  let referencesUpdated := scan.1
  if referencesUpdated = 0 then
    ({ success := false, file := filePath, oldName := oldName, newName := newName,
       referencesUpdated := 0, error := some "Symbol not found" }, content)
  else
    ({ success := true, file := filePath, oldName := oldName, newName := newName,
       referencesUpdated := referencesUpdated, error := none }, scan.2)

/-- Fallback regex rename from `go-renamer.ts` (`fallbackGoRename`); the
source body is identical to the Python fallback. -/
def fallbackGoRename (filePath oldName newName : String)
    (content : List Char) : RenameResult × List Char :=
  let scan := replaceWordAll oldName.data newName.data none content
  let referencesUpdated := scan.1
  if referencesUpdated = 0 then
    ({ success := false, file := filePath, oldName := oldName, newName := newName,
       referencesUpdated := 0, error := some "Symbol not found" }, content)
  else
    ({ success := true, file := filePath, oldName := oldName, newName := newName,
       referencesUpdated := referencesUpdated, error := none }, scan.2)

example : (fallbackPythonRename "f.py" "data" "userProfile"
    "const data = 1;\nconsole.log(data);".data).1.referencesUpdated = 2 := by decide

example : (fallbackPythonRename "f.py" "data" "userProfile"
    "const data = 1;\nconsole.log(data);".data).2
    = "const userProfile = 1;\nconsole.log(userProfile);".data := by decide

/-! ## Diff interpretation

Shallow embedding of `detectLanguage` and `parseDiff` from the diff
parsing module.  JS string operations (`split`, `startsWith`,
`substring(1)`, the regex `/\+(\d+)/`) are modelled over `List Char`. -/

/-- Supported language tiers (`LanguageType` in `types/index.ts`). -/
inductive LanguageType where
  | typescript
  | javascript
  | python
  | go
deriving DecidableEq, Repr

/-- A recorded diff line: 1-based line number in the new file version plus
the line text. -/
structure LineEntry where
  line : Nat
  content : String
deriving DecidableEq, Repr

/-- Parsed diff for one file (`PRDiff` in `types/index.ts`). -/
structure PRDiff where
  file : String
  language : LanguageType
  additions : List LineEntry
  deletions : List LineEntry
  modifications : List LineEntry
deriving DecidableEq, Repr

/-- JS `String.prototype.split` with a single-character separator.  Like
JS, splitting the empty string yields one empty field. -/
def splitOnChar (sep : Char) : List Char → List (List Char)
  | [] => [[]]
  | c :: rest =>
    let r := splitOnChar sep rest
    if c = sep then [] :: r
    else
      match r with
      | [] => [[c]]
      | l :: ls => (c :: l) :: ls

/-- JS `String.prototype.startsWith` over character lists. -/
def listStartsWith (pat l : List Char) : Bool :=
  pat.isPrefixOf l

/-- `parseInt` on a run of decimal digits. -/
def digitsToNat (ds : List Char) : Nat :=
  ds.foldl (fun n c => n * 10 + (c.toNat - '0'.toNat)) 0

/-- First match of the regex `/\+(\d+)/` in a line: scan left to right for
a `+` followed by at least one digit and return the value of the maximal
digit run. -/
def findPlusNum : List Char → Option Nat
  | [] => none
  | c :: rest =>
    if c = '+' then
      let ds := rest.takeWhile Char.isDigit
      if ds.isEmpty then findPlusNum rest else some (digitsToNat ds)
    else findPlusNum rest

/-- Language detection from the file extension (`detectLanguage`):
lower-cased last `.`-separated component of the path. -/
def detectLanguage (filePath : String) : Option LanguageType :=
  match (splitOnChar '.' filePath.data).getLast? with
  | none => none
  | some extChars =>
    let ext := extChars.map Char.toLower
    if ext = "ts".data ∨ ext = "tsx".data then some .typescript
    else if ext = "js".data ∨ ext = "jsx".data then some .javascript
    else if ext = "py".data then some .python
    else if ext = "go".data then some .go
    else none

/-- Mutable state of the line loop inside `parseDiff`. -/
structure DiffScanState where
  currentLine : Nat
  inHunk : Bool
  additions : List LineEntry
  deletions : List LineEntry
deriving Repr

/-- One iteration of the `for (const line of lines)` loop in `parseDiff`:
a `@@` line with a `+<digits>` group resets the current new-file line and
enters a hunk; outside a hunk lines are ignored; a `+` line (but not
`+++`) is recorded as an addition and consumes a line number; a `-` line
(but not `---`) is recorded as a deletion without consuming one; a
leading-space context line consumes one without being recorded. -/
def diffScanStep (st : DiffScanState) (line : List Char) : DiffScanState :=
  if listStartsWith "@@".data line then
    match findPlusNum line with
    | some n => { st with currentLine := n, inHunk := true }
    | none => st
  else if !st.inHunk then st
  else if listStartsWith "+".data line && !listStartsWith "+++".data line then
    { st with
        additions := st.additions ++ [⟨st.currentLine, String.mk (line.drop 1)⟩],
        currentLine := st.currentLine + 1 }
  else if listStartsWith "-".data line && !listStartsWith "---".data line then
    { st with deletions := st.deletions ++ [⟨st.currentLine, String.mk (line.drop 1)⟩] }
  else if listStartsWith " ".data line then
    { st with currentLine := st.currentLine + 1 }
  else st

/-- `parseDiff(diffText, filePath)`: `none` exactly for unsupported
extensions; otherwise walk the diff lines and classify additions as
modifications when a deletion lies within two line numbers
(`Math.abs(del.line - addition.line) <= 2`). -/
def parseDiff (diffText : String) (filePath : String) : Option PRDiff :=
  match detectLanguage filePath with
  | none => none
  | some language =>
    let lines := splitOnChar '\n' diffText.data
    let final := lines.foldl diffScanStep ⟨0, false, [], []⟩
    let modifications := final.additions.filter fun a =>
      final.deletions.any fun d => ((d.line : Int) - (a.line : Int)).natAbs ≤ 2
    some { file := filePath, language := language, additions := final.additions,
           deletions := final.deletions, modifications := modifications }

/-- Declarative unified-diff walk, written from the specification text: a
hunk header establishes the starting line number of the new file version,
`+` lines are additions consuming one increment each, `-` lines are
deletions that do not consume an increment, and context lines consume one
increment without being recorded.  Returns the additions and deletions. -/
def diffWalkSpec : List (List Char) → Nat → Bool → List LineEntry × List LineEntry
  | [], _, _ => ([], [])
  | line :: ls, cur, inHunk =>
    if listStartsWith "@@".data line then
      match findPlusNum line with
      | some n => diffWalkSpec ls n true
      | none => diffWalkSpec ls cur inHunk
    else if !inHunk then diffWalkSpec ls cur inHunk
    else if listStartsWith "+".data line && !listStartsWith "+++".data line then
      let r := diffWalkSpec ls (cur + 1) inHunk
      (⟨cur, String.mk (line.drop 1)⟩ :: r.1, r.2)
    else if listStartsWith "-".data line && !listStartsWith "---".data line then
      let r := diffWalkSpec ls cur inHunk
      (r.1, ⟨cur, String.mk (line.drop 1)⟩ :: r.2)
    else if listStartsWith " ".data line then
      diffWalkSpec ls (cur + 1) inHunk
    else diffWalkSpec ls cur inHunk

example : parseDiff "@@ -1,3 +1,4 @@\n const x = 1;\n+const data = fetchUser();\n const y = 2;" "test.ts"
    = some { file := "test.ts", language := .typescript,
             additions := [⟨2, "const data = fetchUser();"⟩],
             deletions := [], modifications := [] } := by decide

/-! ## File system and rename orchestrator

`performSafeRename` and `batchRename` from `rename-orchestrator.ts`.  The
file system is a partial map from path to content.  `fs.copyFile` and
`fs.unlink` may throw; whether an individual call succeeds is prescribed
by a `FsOracle` (one flag per call site), with a failed call leaving the
file system unchanged.  The language-specific rename and verification
steps (the two `switch` statements) are abstracted as a `Backend` whose
steps act on the file system and may either return or throw. -/

/-- File path. -/
abbrev FileName := String

/-- Byte content of a file. -/
abbrev FileContent := List Char

/-- The file system: a partial map from path to content. -/
abbrev FS := FileName → Option FileContent

/-- Overwrite (or create) the file at `p` with content `c`. -/
def fsWrite (fs : FS) (p : FileName) (c : FileContent) : FS :=
  fun q => if q = p then some c else fs q

/-- Remove the file at `p`. -/
def fsErase (fs : FS) (p : FileName) : FS :=
  fun q => if q = p then none else fs q

/-- `fs.copyFile(src, dst)`: succeeds when the oracle allows it and the
source exists, atomically writing the source content to `dst`; otherwise
throws, leaving the file system unchanged. -/
def copyFile (ok : Bool) (fs : FS) (src dst : FileName) : Except String FS :=
  match fs src, ok with
  | some c, true => .ok (fsWrite fs dst c)
  | _, _ => .error "copyFile failed"

/-- `fs.unlink(p)`: succeeds when the oracle allows it and the file
exists; otherwise throws, leaving the file system unchanged. -/
def unlink (ok : Bool) (fs : FS) (p : FileName) : Except String FS :=
  match fs p, ok with
  | some _, true => .ok (fsErase fs p)
  | _, _ => .error "unlink failed"

/-- Result of an effectful step that may either return a value or throw;
in both cases it leaves the file system in some state. -/
inductive StepResult (α : Type) where
  | ok (a : α) (fs : FS)
  | thrown (e : String) (fs : FS)

/-- The file system left behind by a step. -/
def StepResult.state {α : Type} : StepResult α → FS
  | .ok _ fs => fs
  | .thrown _ fs => fs

/-- A language rename backend: the `rename*Symbol` call selected by the
language `switch` (returning a `RenameResult`) and the corresponding
`verify*` call (returning a boolean). -/
structure Backend where
  rename : FS → StepResult RenameResult
  verify : FS → StepResult Bool

/-- Success/failure prescription for each file-system call site inside
`performSafeRename` (one flag per `copyFile`/`unlink` in the source). -/
structure FsOracle where
  backupOk : Bool
  restoreRenameFailOk : Bool
  unlinkRenameFailOk : Bool
  restoreVerifyFailOk : Bool
  unlinkVerifyFailOk : Bool
  unlinkSuccessOk : Bool
  emergencyRestoreOk : Bool
  emergencyUnlinkOk : Bool
deriving DecidableEq, Repr

/-- The generic failure outcome built by `performSafeRename`. -/
def failResult (filePath oldName newName err : String) : RenameResult :=
  { success := false, file := filePath, oldName := oldName, newName := newName,
    referencesUpdated := 0, error := some err }

/-- The `catch` block of `performSafeRename`: best-effort restore from the
backup followed by backup deletion, with failures of either call logged
and swallowed. -/
def emergencyRestore (o : FsOracle) (fs : FS) (filePath backupPath : FileName) : FS :=
  match copyFile o.emergencyRestoreOk fs backupPath filePath with
  | .error _ => fs
  | .ok fs1 =>
    match unlink o.emergencyUnlinkOk fs1 backupPath with
    | .error _ => fs1
    | .ok fs2 => fs2

/-- `performSafeRename` from `rename-orchestrator.ts`: back up the file,
dispatch the backend rename, restore-and-return on backend failure, run
verification on success, roll back when verification fails, and on any
thrown error restore best-effort and return a generic failure.  Each
`.error` arm of a file-system step models the corresponding exception
propagating to the `catch` block. -/
def performSafeRename (o : FsOracle) (b : Backend) (filePath : FileName)
    (suggestion : NamingSuggestion) (fs : FS) : RenameResult × FS :=
  let backupPath := filePath ++ ".backup"
  match copyFile o.backupOk fs filePath backupPath with
  | .error _ =>
    (failResult filePath suggestion.oldName suggestion.newName "Failed to create backup", fs)
  | .ok fs1 =>
    match b.rename fs1 with
    | .thrown e fs2 =>
      (failResult filePath suggestion.oldName suggestion.newName e,
       emergencyRestore o fs2 filePath backupPath)
    | .ok result fs2 =>
      if result.success = false then
        match copyFile o.restoreRenameFailOk fs2 backupPath filePath with
        | .error e =>
          (failResult filePath suggestion.oldName suggestion.newName e,
           emergencyRestore o fs2 filePath backupPath)
        | .ok fs3 =>
          match unlink o.unlinkRenameFailOk fs3 backupPath with
          | .error e =>
            (failResult filePath suggestion.oldName suggestion.newName e,
             emergencyRestore o fs3 filePath backupPath)
          | .ok fs4 => (result, fs4)
      else
        match b.verify fs2 with
        | .thrown e fs3 =>
          (failResult filePath suggestion.oldName suggestion.newName e,
           emergencyRestore o fs3 filePath backupPath)
        | .ok isValid fs3 =>
          if isValid = false then
            match copyFile o.restoreVerifyFailOk fs3 backupPath filePath with
            | .error e =>
              (failResult filePath suggestion.oldName suggestion.newName e,
               emergencyRestore o fs3 filePath backupPath)
            | .ok fs4 =>
              match unlink o.unlinkVerifyFailOk fs4 backupPath with
              | .error e =>
                (failResult filePath suggestion.oldName suggestion.newName e,
                 emergencyRestore o fs4 filePath backupPath)
              | .ok fs5 =>
                ({ result with
                     success := false
                     error := some "Verification failed after rename" }, fs5)
          else
            match unlink o.unlinkSuccessOk fs3 backupPath with
            | .error e =>
              (failResult filePath suggestion.oldName suggestion.newName e,
               emergencyRestore o fs3 filePath backupPath)
            | .ok fs4 => (result, fs4)

/-- One entry of the `renames` array passed to `batchRename`, together
with the environment (backend and file-system oracle) in effect when its
`performSafeRename` call runs. -/
structure RenameRequest where
  filePath : FileName
  suggestion : NamingSuggestion
  backend : Backend
  oracle : FsOracle

/-- `batchRename`: apply the requests in list order, collecting outcomes,
and stop at the first outcome with `success = false`. -/
def batchRename (fs : FS) : List RenameRequest → List RenameResult × FS
  | [] => ([], fs)
  | r :: rest =>
    let step := performSafeRename r.oracle r.backend r.filePath r.suggestion fs
    if step.1.success then
      let next := batchRename step.2 rest
      (step.1 :: next.1, next.2)
    else ([step.1], step.2)

/-- Reference run that applies every request unconditionally (no
fail-fast), used to state what the fail-fast batch does and does not
execute. -/
def runAllRenames (fs : FS) : List RenameRequest → List RenameResult × FS
  | [] => ([], fs)
  | r :: rest =>
    let step := performSafeRename r.oracle r.backend r.filePath r.suggestion fs
    let next := runAllRenames step.2 rest
    (step.1 :: next.1, next.2)

/-- Index of the first failed outcome in a result list. -/
def firstFailIdx : List RenameResult → Option Nat
  | [] => none
  | r :: rs => if !r.success then some 0 else (firstFailIdx rs).map (· + 1)

/-! ## Suggestion client

Shallow embedding of `llm/client.ts` and `llm/config.ts`.  The process
clock is passed explicitly (`Date.now()` at the time of a call), the
external chat-completion endpoint is an oracle mapping the attempt index
to that attempt's outcome, and `parseNamingSuggestion` (JSON parsing plus
zod validation, library code) is a function parameter.  The SHA-256 cache
fingerprint is modelled by the digested string itself. -/

/-- Token usage block of a chat completion response. -/
structure Usage where
  total_tokens : Nat
  prompt_tokens : Nat
  completion_tokens : Nat
deriving DecidableEq, Repr

/-- Outcome of one external request attempt: the call may throw, or it
may return a response whose first-choice message content and usage block
are each possibly absent. -/
inductive AttemptResult where
  | thrown
  | response (content : Option String) (usage : Option Usage)
deriving DecidableEq

/-- Environment-driven configuration (`getLLMConfig`). -/
structure LLMConfig where
  apiKey : String
  model : String
  maxTokens : Nat
  temperature : ℚ
  maxRetries : Nat
deriving Repr

/-- Pricing table per 1M tokens (`MODEL_PRICING` in `config.ts`). -/
def MODEL_PRICING : List (String × ℚ × ℚ) :=
  [("gpt-4o-mini", (mkRat 15 100, mkRat 60 100)),
   ("gpt-4o", (mkRat 5 2, 10)),
   ("gpt-4-turbo", (10, 30)),
   ("gpt-3.5-turbo", (mkRat 1 2, mkRat 3 2))]

/-- `calculateCost`: price the prompt and completion tokens per the model
row, defaulting to the `gpt-4o-mini` row for unknown models
(`mkRat n 1000000` is the JS division `n / 1_000_000`). -/
def calculateCost (model : String) (inputTokens outputTokens : Nat) : ℚ :=
  let pricing := (MODEL_PRICING.lookup model).getD (mkRat 15 100, mkRat 60 100)
  mkRat inputTokens 1000000 * pricing.1 + mkRat outputTokens 1000000 * pricing.2

/-- Cache entry (`CacheEntry` in `types/index.ts`). -/
structure CacheEntry where
  suggestion : NamingSuggestion
  timestamp : Nat
  ttl : Nat
deriving DecidableEq, Repr

/-- Process-wide cost counters (`CostStats`). -/
structure CostStats where
  totalTokens : Nat
  estimatedCost : ℚ
  apiCalls : Nat
  cacheHitRate : ℚ
deriving DecidableEq, Repr

/-- The in-memory response cache, a `Map` keyed by fingerprint.  The
association list is kept key-unique by the operations below, so its
length is the `Map.size`. -/
abbrev ResponseCache := List (String × CacheEntry)

/-- `Map.prototype.set`: replace the value at an existing key in place,
or append a new binding. -/
def mapSet (k : String) (v : CacheEntry) : ResponseCache → ResponseCache
  | [] => [(k, v)]
  | (k', v') :: rest => if k' = k then (k, v) :: rest else (k', v') :: mapSet k v rest

/-- `Map.prototype.delete` on a key-unique list. -/
def mapDelete (k : String) : ResponseCache → ResponseCache
  | [] => []
  | (k', v') :: rest => if k' = k then rest else (k', v') :: mapDelete k rest

/-- Process-wide mutable state of the suggestion client: the response
cache and the cost counters. -/
structure ClientState where
  cache : ResponseCache
  stats : CostStats
deriving DecidableEq, Repr

/-- The default TTL (`CACHE_TTL = 3600000`, one hour in milliseconds). -/
def CACHE_TTL : Nat := 3600000

/-- Fields of the symbol context that feed the cache key
(`NamingContext`; the remaining fields only feed the opaque prompt
text). -/
structure NamingContext where
  file : String
  oldName : String
  declaration : String
deriving DecidableEq, Repr

/-- `getCacheKey`: fingerprint of `file:oldName:declaration` (the SHA-256
digest is modelled by the digested string). -/
def getCacheKey (context : NamingContext) : String :=
  context.file ++ ":" ++ context.oldName ++ ":" ++ context.declaration

/-- `getCachedResponse`, returning the lookup result together with the
cache (an expired entry is lazily evicted). -/
def getCachedResponse (now : Nat) (cache : ResponseCache) (key : String) :
    Option NamingSuggestion × ResponseCache :=
  match cache.lookup key with
  | none => (none, cache)
  | some entry =>
    if now - entry.timestamp > entry.ttl then (none, mapDelete key cache)
    else (some entry.suggestion, cache)

/-- `cacheResponse`: store a suggestion at the key with the current
timestamp and the default TTL. -/
def cacheResponse (now : Nat) (key : String) (suggestion : NamingSuggestion)
    (cache : ResponseCache) : ResponseCache :=
  mapSet key { suggestion := suggestion, timestamp := now, ttl := CACHE_TTL } cache

/-- The retry loop of `askLLM` (`for attempt = 0..maxRetries`), with
`fuel` the number of attempts still allowed.  The result carries the
suggestion (or `none`), the client state, and the number of external
requests issued.  A thrown request, an empty response and unparseable
JSON all retry; a parsed-but-invalid suggestion returns `none`
immediately; a valid suggestion updates the cost counters, is cached, and
is returned. -/
def askLLMGo (cfg : LLMConfig) (parse : String → Option NamingSuggestion)
    (oracle : Nat → AttemptResult) (now : Nat) (key : String)
    (st : ClientState) : Nat → Nat → Option NamingSuggestion × ClientState × Nat
  | _, 0 => (none, st, 0)
  | attempt, fuel + 1 =>
    match oracle attempt with
    | .thrown =>
      let r := askLLMGo cfg parse oracle now key st (attempt + 1) fuel
      (r.1, r.2.1, r.2.2 + 1)
    | .response none _ =>
      let r := askLLMGo cfg parse oracle now key st (attempt + 1) fuel
      (r.1, r.2.1, r.2.2 + 1)
    | .response (some content) usage =>
      match parse content with
      | none =>
        let r := askLLMGo cfg parse oracle now key st (attempt + 1) fuel
        (r.1, r.2.1, r.2.2 + 1)
      | some suggestion =>
        if !isValidSuggestion suggestion then (none, st, 1)
        else
          let stats1 :=
            match usage with
            | some u =>
              { st.stats with
                  totalTokens := st.stats.totalTokens + u.total_tokens
                  estimatedCost := st.stats.estimatedCost
                    + calculateCost cfg.model u.prompt_tokens u.completion_tokens }
            | none => st.stats
          let stats2 := { stats1 with apiCalls := stats1.apiCalls + 1 }
          (some suggestion,
           { cache := cacheResponse now key suggestion st.cache, stats := stats2 }, 1)

/-- `askLLM`: consult the cache first (with lazy eviction), and on a miss
run the retry loop with `maxRetries + 1` attempts. -/
def askLLM (cfg : LLMConfig) (parse : String → Option NamingSuggestion)
    (oracle : Nat → AttemptResult) (now : Nat) (context : NamingContext)
    (st : ClientState) : Option NamingSuggestion × ClientState × Nat :=
  let cacheKey := getCacheKey context
  let hit := getCachedResponse now st.cache cacheKey
  match hit.1 with
  | some cached => (some cached, { st with cache := hit.2 }, 0)
  | none =>
    askLLMGo cfg parse oracle now cacheKey { st with cache := hit.2 } 0 (cfg.maxRetries + 1)

/-- `getCostStats`: recompute the hit rate from the current cache size
and api-call counter, store it, and return a copy of the stats
(`mkRat` is the JS division, whose zero denominator is guarded by the
`totalRequests > 0` test). -/
def getCostStats (st : ClientState) : CostStats × ClientState :=
  let totalRequests := st.stats.apiCalls + st.cache.length
  let rate : ℚ := if totalRequests > 0 then mkRat st.cache.length totalRequests else 0
  let stats1 := { st.stats with cacheHitRate := rate }
  (stats1, { st with stats := stats1 })

/-- `resetCostStats`: zero all counters. -/
def resetCostStats (st : ClientState) : ClientState :=
  { st with stats := { totalTokens := 0, estimatedCost := 0, apiCalls := 0, cacheHitRate := 0 } }

/-- `clearCache`: empty the response cache. -/
def clearCache (st : ClientState) : ClientState :=
  { st with cache := [] }

/-- One iteration of the collection loop shared by `runAutofix`
(autofix.ts) and `runReview` (review.ts): an `askLLM` result with
confidence at least 0.3 is collected, and, among the collected, one
passing `shouldAutoRename` is additionally queued for autofix. -/
def collectStep (acc : List NamingSuggestion × List NamingSuggestion)
    (r : Option NamingSuggestion) : List NamingSuggestion × List NamingSuggestion :=
  match r with
  | some s =>
    if mkRat 3 10 ≤ s.confidence then
      (acc.1 ++ [s], if shouldAutoRename s then acc.2 ++ [s] else acc.2)
    else acc
  | none => acc

/-- The collection loop over all `askLLM` results, returning
(`allSuggestions`, `autofixSuggestions`). -/
def collectSuggestions (askResults : List (Option NamingSuggestion)) :
    List NamingSuggestion × List NamingSuggestion :=
  askResults.foldl collectStep ([], [])

/-! ## Theorems -/

/-- Scenario B suggestion: identifier `data`, confidence 0.95,
autofix-eligible, not public surface. -/
def scenarioB : NamingSuggestion :=
  { oldName := "data", newName := "userProfile", confidence := mkRat 95 100,
    rationale := "The variable holds a user profile, not generic data.",
    safety := { isApiSurface := false, shouldAutofix := true, reason := "local" },
    alternatives := ["profileData"] }

/-- Scenario B suggestion marked as public API surface. -/
def scenarioBPublic : NamingSuggestion :=
  { scenarioB with safety := { scenarioB.safety with isApiSurface := true } }

/-- C3: the safety gate returns true exactly when confidence is at least
0.85, the suggestion is autofix-eligible, and it is not public surface;
it never returns true for a public-surface suggestion; and Scenario B
evaluates as specified in both variants. -/
theorem shouldAutoRename_iff :
    (∀ s : NamingSuggestion,
      shouldAutoRename s = true ↔
        (mkRat 85 100 ≤ s.confidence ∧ s.safety.shouldAutofix = true
          ∧ s.safety.isApiSurface = false))
    ∧ (∀ s : NamingSuggestion, s.safety.isApiSurface = true → shouldAutoRename s = false)
    ∧ shouldAutoRename scenarioB = true
    ∧ shouldAutoRename scenarioBPublic = false := by
  refine ⟨?_, ?_, by decide, by decide⟩
  · intro s
    unfold shouldAutoRename
    by_cases h1 : s.confidence < mkRat 85 100
    · simp [h1, not_le.mpr h1]
    · cases h2 : s.safety.shouldAutofix <;> cases h3 : s.safety.isApiSurface <;>
        simp [h1, h2, h3, not_lt.mp h1]
  · intro s h
    unfold shouldAutoRename
    by_cases h1 : s.confidence < mkRat 85 100
    · simp [h1]
    · cases h2 : s.safety.shouldAutofix <;> simp [h1, h2, h]

/-- Witness for `shouldAutoRename_iff` at the Scenario B inputs. -/
theorem shouldAutoRename_iff_witness :
    shouldAutoRename scenarioB = true ∧ shouldAutoRename scenarioBPublic = false :=
  ⟨(shouldAutoRename_iff.1 scenarioB).mpr (by decide),
   shouldAutoRename_iff.2.1 scenarioBPublic (by decide)⟩

/-- The number of matches found by the global scan does not depend on the
replacement text. -/
theorem replaceWordGo_fst_repl (pat r1 r2 : List Char) :
    ∀ fuel prev s, (replaceWordGo pat r1 fuel prev s).1
      = (replaceWordGo pat r2 fuel prev s).1 := by
  intro fuel
  induction fuel with
  | zero => intro _ _; rfl
  | succ n ih =>
    intro prev s
    cases s with
    | nil => rfl
    | cons c rest =>
      by_cases h : pat ≠ [] ∧ wordMatchAt pat prev (c :: rest) = true
      · simp only [replaceWordGo, if_pos h]
        exact congrArg (· + 1) (ih _ _)
      · simp only [replaceWordGo, if_neg h]
        exact ih _ _

/-- `countWordMatches` of the old name equals the match count of the scan
that performs the substitution. -/
theorem replaceWordAll_fst_repl (pat r1 r2 : List Char) (prev : Option Char)
    (s : List Char) :
    (replaceWordAll pat r1 prev s).1 = (replaceWordAll pat r2 prev s).1 :=
  replaceWordGo_fst_repl pat r1 r2 s.length prev s

/-- C5 (amended): the fallback rename fails with `Symbol not found`
exactly when the old name has zero whole-word matches, leaving the
content untouched; on success `referencesUpdated` is the number of
whole-word occurrences of the *old* name in the content before the
substitution (the number of occurrences replaced), and the content is the
whole-word substitution result; the Go fallback is the same function; and
Scenario C produces `referencesUpdated = 2` with the fully renamed
content. -/
theorem fallbackRename_oldName_count :
    (∀ (filePath oldName newName : String) (content : List Char),
      ((fallbackPythonRename filePath oldName newName content).1.success = false
        ↔ countWordMatches oldName.data content = 0)
      ∧ ((fallbackPythonRename filePath oldName newName content).1.success = false →
          (fallbackPythonRename filePath oldName newName content).1.error
            = some "Symbol not found"
          ∧ (fallbackPythonRename filePath oldName newName content).2 = content)
      ∧ ((fallbackPythonRename filePath oldName newName content).1.success = true →
          (fallbackPythonRename filePath oldName newName content).1.referencesUpdated
            = countWordMatches oldName.data content
          ∧ (fallbackPythonRename filePath oldName newName content).2
            = (replaceWordAll oldName.data newName.data none content).2)
      ∧ fallbackGoRename filePath oldName newName content
          = fallbackPythonRename filePath oldName newName content)
    ∧ (fallbackPythonRename "f.py" "data" "userProfile"
        "const data = 1;\nconsole.log(data);".data).1.referencesUpdated = 2
    ∧ (fallbackPythonRename "f.py" "data" "userProfile"
        "const data = 1;\nconsole.log(data);".data).2
        = "const userProfile = 1;\nconsole.log(userProfile);".data := by
  refine ⟨?_, by decide, by decide⟩
  intro filePath oldName newName content
  have hcount : countWordMatches oldName.data content
      = (replaceWordAll oldName.data newName.data none content).1 :=
    replaceWordAll_fst_repl oldName.data oldName.data newName.data none content
  unfold fallbackPythonRename fallbackGoRename
  by_cases h : (replaceWordAll oldName.data newName.data none content).1 = 0 <;>
    simp [h, hcount]

/-- Witness for `fallbackRename_oldName_count` at the Scenario C input. -/
theorem fallbackRename_oldName_count_witness :
    (fallbackPythonRename "f.py" "data" "userProfile"
        "const data = 1;\nconsole.log(data);".data).1.success = true
    ∧ (fallbackPythonRename "f.py" "data" "userProfile"
        "const data = 1;\nconsole.log(data);".data).1.referencesUpdated
      = countWordMatches "data".data "const data = 1;\nconsole.log(data);".data :=
  ⟨by decide,
   ((fallbackRename_oldName_count.1 "f.py" "data" "userProfile"
      "const data = 1;\nconsole.log(data);".data).2.2.1 (by decide)).1⟩

/-- C5 counterexample: on a file that already contains the new name, the
fallback rename reports `referencesUpdated = 1` (the replaced whole-word
occurrences of the old name) while the post-substitution content has two
whole-word occurrences of the new name, so `referencesUpdated` is not the
count of the new name after substitution as claimed. -/
theorem fallbackRename_newName_count_counterexample :
    (fallbackPythonRename "f.py" "data" "userProfile" "data userProfile".data).1.success
      = true
    ∧ (fallbackPythonRename "f.py" "data" "userProfile"
        "data userProfile".data).1.referencesUpdated = 1
    ∧ countWordMatches "userProfile".data
        (fallbackPythonRename "f.py" "data" "userProfile" "data userProfile".data).2 = 2
    ∧ (fallbackPythonRename "f.py" "data" "userProfile"
          "data userProfile".data).1.referencesUpdated
        ≠ countWordMatches "userProfile".data
            (fallbackPythonRename "f.py" "data" "userProfile" "data userProfile".data).2 := by
  refine ⟨by decide, by decide, by decide, by decide⟩

/-- The imperative line loop of `parseDiff` computes the same additions
and deletions as the declarative walk, for any starting state. -/
theorem foldl_diffScanStep_eq (lines : List (List Char)) :
    ∀ st : DiffScanState,
      (lines.foldl diffScanStep st).additions
        = st.additions ++ (diffWalkSpec lines st.currentLine st.inHunk).1
      ∧ (lines.foldl diffScanStep st).deletions
        = st.deletions ++ (diffWalkSpec lines st.currentLine st.inHunk).2 := by
  induction lines with
  | nil => intro st; simp [diffWalkSpec]
  | cons l ls ih =>
    intro st
    simp only [List.foldl_cons]
    by_cases h1 : listStartsWith "@@".data l = true
    · cases hf : findPlusNum l with
      | some n =>
        have hstep : diffScanStep st l = { st with currentLine := n, inHunk := true } := by
          simp [diffScanStep, h1, hf]
        have hspec : diffWalkSpec (l :: ls) st.currentLine st.inHunk
            = diffWalkSpec ls n true := by
          simp [diffWalkSpec, h1, hf]
        rw [hstep, hspec]
        exact ih { st with currentLine := n, inHunk := true }
      | none =>
        have hstep : diffScanStep st l = st := by
          simp [diffScanStep, h1, hf]
        have hspec : diffWalkSpec (l :: ls) st.currentLine st.inHunk
            = diffWalkSpec ls st.currentLine st.inHunk := by
          simp [diffWalkSpec, h1, hf]
        rw [hstep, hspec]
        exact ih st
    · rcases Bool.eq_false_or_eq_true st.inHunk with h2 | h2
      swap
      · have hstep : diffScanStep st l = st := by
          simp [diffScanStep, h1, h2]
        have hspec : diffWalkSpec (l :: ls) st.currentLine st.inHunk
            = diffWalkSpec ls st.currentLine st.inHunk := by
          simp [diffWalkSpec, h1, h2]
        rw [hstep, hspec]
        exact ih st
      · by_cases h3 : (listStartsWith "+".data l && !listStartsWith "+++".data l) = true
        · have hstep : diffScanStep st l
              = { st with
                    additions := st.additions
                      ++ [⟨st.currentLine, String.mk (l.drop 1)⟩],
                    currentLine := st.currentLine + 1 } := by
            simp [diffScanStep, h1, h2, h3]
          have hspec : diffWalkSpec (l :: ls) st.currentLine st.inHunk
              = (⟨st.currentLine, String.mk (l.drop 1)⟩
                    :: (diffWalkSpec ls (st.currentLine + 1) true).1,
                 (diffWalkSpec ls (st.currentLine + 1) true).2) := by
            simp [diffWalkSpec, h1, h2, h3]
          rw [hstep, hspec]
          have hih := ih { st with
                            additions := st.additions
                              ++ [⟨st.currentLine, String.mk (l.drop 1)⟩],
                            currentLine := st.currentLine + 1 }
          simpa [h2, List.append_assoc] using hih
        · by_cases h4 : (listStartsWith "-".data l && !listStartsWith "---".data l) = true
          · have hstep : diffScanStep st l
                = { st with
                      deletions := st.deletions
                        ++ [⟨st.currentLine, String.mk (l.drop 1)⟩] } := by
              simp [diffScanStep, h1, h2, h3, h4]
            have hspec : diffWalkSpec (l :: ls) st.currentLine st.inHunk
                = ((diffWalkSpec ls st.currentLine true).1,
                   ⟨st.currentLine, String.mk (l.drop 1)⟩
                      :: (diffWalkSpec ls st.currentLine true).2) := by
              simp [diffWalkSpec, h1, h2, h3, h4]
            rw [hstep, hspec]
            have hih := ih { st with
                              deletions := st.deletions
                                ++ [⟨st.currentLine, String.mk (l.drop 1)⟩] }
            simpa [h2, List.append_assoc] using hih
          · by_cases h5 : listStartsWith " ".data l = true
            · have hstep : diffScanStep st l
                  = { st with currentLine := st.currentLine + 1 } := by
                simp [diffScanStep, h1, h2, h3, h4, h5]
              have hspec : diffWalkSpec (l :: ls) st.currentLine st.inHunk
                  = diffWalkSpec ls (st.currentLine + 1) true := by
                simp [diffWalkSpec, h1, h2, h3, h4, h5]
              rw [hstep, hspec]
              have hih := ih { st with currentLine := st.currentLine + 1 }
              simpa [h2] using hih
            · have hstep : diffScanStep st l = st := by
                simp [diffScanStep, h1, h2, h3, h4, h5]
              have hspec : diffWalkSpec (l :: ls) st.currentLine st.inHunk
                  = diffWalkSpec ls st.currentLine st.inHunk := by
                simp [diffWalkSpec, h1, h2, h3, h4, h5]
              rw [hstep, hspec]
              exact ih st

/-- C6: `parseDiff` assigns new-file line numbers exactly as the
unified-diff walk of the specification describes (hunk header sets the
line from its `+` field, `+` lines are recorded then increment, `-` lines
are recorded without incrementing, context lines increment without being
recorded), and the Scenario A diff against `test.ts` parses to exactly
one addition `const data = fetchUser();` at new-file line 2. -/
theorem parseDiff_walk :
    (∀ (diffText filePath : String) (d : PRDiff),
      parseDiff diffText filePath = some d →
      d.additions = (diffWalkSpec (splitOnChar '\n' diffText.data) 0 false).1
      ∧ d.deletions = (diffWalkSpec (splitOnChar '\n' diffText.data) 0 false).2)
    ∧ parseDiff "@@ -1,3 +1,4 @@\n const x = 1;\n+const data = fetchUser();\n const y = 2;"
        "test.ts"
      = some { file := "test.ts", language := .typescript,
               additions := [⟨2, "const data = fetchUser();"⟩],
               deletions := [], modifications := [] } := by
  constructor
  · intro diffText filePath d h
    unfold parseDiff at h
    cases hl : detectLanguage filePath with
    | none => rw [hl] at h; exact absurd h (by simp)
    | some lang =>
      rw [hl] at h
      simp only [Option.some.injEq] at h
      subst h
      have hfold := foldl_diffScanStep_eq (splitOnChar '\n' diffText.data) ⟨0, false, [], []⟩
      constructor
      · simpa using hfold.1
      · simpa using hfold.2
  · decide

/-- Witness for `parseDiff_walk` at a concrete diff. -/
theorem parseDiff_walk_witness :
    parseDiff "@@ -1,3 +1,4 @@\n x\n+y" "a.py"
      = some { file := "a.py", language := .python,
               additions := [⟨2, "y"⟩], deletions := [], modifications := [] }
    ∧ ([⟨2, "y"⟩] : List LineEntry)
        = (diffWalkSpec (splitOnChar '\n' ("@@ -1,3 +1,4 @@\n x\n+y" : String).data) 0 false).1 :=
  ⟨by decide,
   (parseDiff_walk.1 "@@ -1,3 +1,4 @@\n x\n+y" "a.py"
      ⟨"a.py", .python, [⟨2, "y"⟩], [], []⟩ (by decide)).1⟩

/-- The six supported extensions, lower-cased. -/
def supportedExts : List (List Char) :=
  ["ts".data, "tsx".data, "js".data, "jsx".data, "py".data, "go".data]

/-- Lower-cased last `.`-separated component of a path (the JS
`filePath.split('.').pop()?.toLowerCase()`). -/
def lastExtLower (filePath : String) : Option (List Char) :=
  ((splitOnChar '.' filePath.data).getLast?).map (fun l => l.map Char.toLower)

/-- Whether some line both starts with `@@` and contains a `+<digits>`
group, i.e. establishes a hunk. -/
def hasHunkStart (lines : List (List Char)) : Bool :=
  lines.any fun l => listStartsWith "@@".data l && (findPlusNum l).isSome

/-- Without any hunk-establishing line the walk records nothing. -/
theorem diffWalkSpec_no_hunk (lines : List (List Char)) :
    ∀ cur, hasHunkStart lines = false → diffWalkSpec lines cur false = ([], []) := by
  induction lines with
  | nil => intro cur _; rfl
  | cons l ls ih =>
    intro cur h
    have h' : (listStartsWith "@@".data l && (findPlusNum l).isSome) = false
        ∧ hasHunkStart ls = false := by
      simpa [hasHunkStart, List.any_cons, Bool.or_eq_false_iff] using h
    by_cases h1 : listStartsWith "@@".data l = true
    · have hf : findPlusNum l = none := by
        cases hfp : findPlusNum l with
        | none => rfl
        | some n =>
          have := h'.1
          rw [h1, hfp] at this
          simp at this
      simp only [diffWalkSpec, if_pos h1, hf]
      exact ih cur h'.2
    · simp only [diffWalkSpec, if_neg h1, Bool.not_false, if_pos]
      exact ih cur h'.2

/-- C10: `parseDiff` returns a change object exactly when the extension
is supported (it is total in the diff text, so malformed text never fails
it), and any text without a hunk-establishing line — the empty string in
particular — yields empty addition, deletion and modification lists. -/
theorem parseDiff_totality :
    (∀ diffText filePath : String,
      (parseDiff diffText filePath).isSome = (detectLanguage filePath).isSome)
    ∧ (∀ filePath : String,
      (detectLanguage filePath).isSome = true ↔
        ∃ e, lastExtLower filePath = some e ∧ e ∈ supportedExts)
    ∧ (∀ (diffText filePath : String) (d : PRDiff),
      parseDiff diffText filePath = some d →
      hasHunkStart (splitOnChar '\n' diffText.data) = false →
      d.additions = [] ∧ d.deletions = [] ∧ d.modifications = [])
    ∧ (∀ (filePath : String) (d : PRDiff),
      parseDiff "" filePath = some d →
      d.additions = [] ∧ d.deletions = [] ∧ d.modifications = []) := by
  have part3 : ∀ (diffText filePath : String) (d : PRDiff),
      parseDiff diffText filePath = some d →
      hasHunkStart (splitOnChar '\n' diffText.data) = false →
      d.additions = [] ∧ d.deletions = [] ∧ d.modifications = [] := by
    intro diffText filePath d h hh
    unfold parseDiff at h
    cases hl : detectLanguage filePath with
    | none => rw [hl] at h; exact absurd h (by simp)
    | some lang =>
      rw [hl] at h
      simp only [Option.some.injEq] at h
      subst h
      have hfold := foldl_diffScanStep_eq (splitOnChar '\n' diffText.data) ⟨0, false, [], []⟩
      have hwalk := diffWalkSpec_no_hunk (splitOnChar '\n' diffText.data) 0 hh
      refine ⟨?_, ?_, ?_⟩
      · simpa [hwalk] using hfold.1
      · simpa [hwalk] using hfold.2
      · have ha : (List.foldl diffScanStep ⟨0, false, [], []⟩
            (splitOnChar '\n' diffText.data)).additions = [] := by
          simpa [hwalk] using hfold.1
        simp [ha]
  refine ⟨?_, ?_, part3, fun filePath d h => part3 "" filePath d h (by decide)⟩
  · intro diffText filePath
    unfold parseDiff
    cases hl : detectLanguage filePath <;> simp
  · intro filePath
    unfold detectLanguage lastExtLower supportedExts
    cases hg : (splitOnChar '.' filePath.data).getLast? with
    | none => simp
    | some ext =>
      simp only [Option.map_some', Option.some.injEq]
      constructor
      · intro h
        refine ⟨ext.map Char.toLower, rfl, ?_⟩
        by_cases c1 : ext.map Char.toLower = "ts".data ∨ ext.map Char.toLower = "tsx".data
        · rcases c1 with c | c <;> simp [c]
        · by_cases c2 : ext.map Char.toLower = "js".data ∨ ext.map Char.toLower = "jsx".data
          · rcases c2 with c | c <;> simp [c]
          · by_cases c3 : ext.map Char.toLower = "py".data
            · simp [c3]
            · by_cases c4 : ext.map Char.toLower = "go".data
              · simp [c4]
              · rw [if_neg c1, if_neg c2, if_neg c3, if_neg c4] at h
                simp at h
      · rintro ⟨e, rfl, he⟩
        simp only [List.mem_cons, List.mem_singleton, List.not_mem_nil, or_false] at he
        rcases he with h | h | h | h | h | h <;> simp [h]

/-- Witness for `parseDiff_totality`: a malformed diff (an orphan `+`
line and a hunk marker without a line group) against a supported file
parses to a change object with empty lists. -/
theorem parseDiff_totality_witness :
    parseDiff "+orphan\n@@ broken @@" "a.go"
      = some { file := "a.go", language := .go,
               additions := [], deletions := [], modifications := [] }
    ∧ (({ file := "a.go", language := .go, additions := [], deletions := [],
          modifications := [] } : PRDiff).additions = []
        ∧ ({ file := "a.go", language := .go, additions := [], deletions := [],
             modifications := [] } : PRDiff).deletions = []
        ∧ ({ file := "a.go", language := .go, additions := [], deletions := [],
             modifications := [] } : PRDiff).modifications = []) :=
  ⟨by decide,
   parseDiff_totality.2.2.1 "+orphan\n@@ broken @@" "a.go"
     ⟨"a.go", .go, [], [], []⟩ (by decide) (by decide)⟩

/-- C2: `batchRename` attempts the requests in order; if the `i`-th
outcome (0-based) of the run is the first failure, it returns exactly the
outcomes of the first `i + 1` requests — a list of `i + 1` elements — and
the file-system state is the state after executing exactly those
requests, so the remaining requests run no file operations; when no
request fails, it behaves as the full run and returns `n` outcomes. -/
theorem batchRename_failFast (fs : FS) (reqs : List RenameRequest) :
    (∀ i, firstFailIdx (runAllRenames fs reqs).1 = some i →
        batchRename fs reqs
          = ((runAllRenames fs (reqs.take (i + 1))).1,
             (runAllRenames fs (reqs.take (i + 1))).2)
        ∧ (batchRename fs reqs).1.length = i + 1)
    ∧ (firstFailIdx (runAllRenames fs reqs).1 = none →
        batchRename fs reqs = runAllRenames fs reqs
        ∧ (batchRename fs reqs).1.length = reqs.length) := by
  induction reqs generalizing fs with
  | nil =>
    refine ⟨?_, ?_⟩
    · intro i h
      simp [runAllRenames, firstFailIdx] at h
    · intro _
      simp [batchRename, runAllRenames]
  | cons r rest ih =>
    rcases Bool.eq_false_or_eq_true
        (performSafeRename r.oracle r.backend r.filePath r.suggestion fs).1.success with hs | hs
    · -- head succeeds: the batch recurses
      have hbatch : batchRename fs (r :: rest)
          = ((performSafeRename r.oracle r.backend r.filePath r.suggestion fs).1
              :: (batchRename
                   (performSafeRename r.oracle r.backend r.filePath r.suggestion fs).2 rest).1,
             (batchRename
               (performSafeRename r.oracle r.backend r.filePath r.suggestion fs).2 rest).2) := by
        simp [batchRename, hs]
      have hall : runAllRenames fs (r :: rest)
          = ((performSafeRename r.oracle r.backend r.filePath r.suggestion fs).1
              :: (runAllRenames
                   (performSafeRename r.oracle r.backend r.filePath r.suggestion fs).2 rest).1,
             (runAllRenames
               (performSafeRename r.oracle r.backend r.filePath r.suggestion fs).2 rest).2) := by
        simp [runAllRenames]
      refine ⟨?_, ?_⟩
      · intro i h
        rw [hall] at h
        simp [firstFailIdx, hs] at h
        obtain ⟨j, hj, rfl⟩ := h
        have hrec := (ih (performSafeRename r.oracle r.backend r.filePath r.suggestion fs).2).1
          j hj
        constructor
        · rw [hbatch, hrec.1]
          simp [List.take_cons, runAllRenames]
        · rw [hbatch]
          simp [hrec.2]
      · intro h
        rw [hall] at h
        simp [firstFailIdx, hs, Option.map_eq_none'] at h
        have hrec := (ih (performSafeRename r.oracle r.backend r.filePath r.suggestion fs).2).2 h
        constructor
        · rw [hbatch, hall, hrec.1]
        · rw [hbatch]
          simp [hrec.2]
    · -- head fails: the batch stops after one request
      have hbatch : batchRename fs (r :: rest)
          = ([(performSafeRename r.oracle r.backend r.filePath r.suggestion fs).1],
             (performSafeRename r.oracle r.backend r.filePath r.suggestion fs).2) := by
        simp [batchRename, hs]
      have hall : runAllRenames fs (r :: rest)
          = ((performSafeRename r.oracle r.backend r.filePath r.suggestion fs).1
              :: (runAllRenames
                   (performSafeRename r.oracle r.backend r.filePath r.suggestion fs).2 rest).1,
             (runAllRenames
               (performSafeRename r.oracle r.backend r.filePath r.suggestion fs).2 rest).2) := by
        simp [runAllRenames]
      refine ⟨?_, ?_⟩
      · intro i h
        rw [hall] at h
        simp only [firstFailIdx, hs, Bool.not_false, if_pos, Option.some.injEq] at h
        subst h
        constructor
        · rw [hbatch]
          simp [List.take_cons, runAllRenames]
        · rw [hbatch]
          rfl
      · intro h
        rw [hall] at h
        simp [firstFailIdx, hs] at h

/-- Writing a file changes exactly that path. -/
theorem fsWrite_self (fs : FS) (p : FileName) (c : FileContent) :
    fsWrite fs p c p = some c := by simp [fsWrite]

/-- Writing a file leaves other paths unchanged. -/
theorem fsWrite_ne (fs : FS) (p : FileName) (c : FileContent) (q : FileName)
    (h : q ≠ p) : fsWrite fs p c q = fs q := by simp [fsWrite, h]

/-- Erasing a file leaves other paths unchanged. -/
theorem fsErase_ne (fs : FS) (p q : FileName) (h : q ≠ p) :
    fsErase fs p q = fs q := by simp [fsErase, h]

/-- A successful copy means the source existed, the oracle allowed the
call, and the result is the pointwise overwrite. -/
theorem copyFile_ok_elim {ok : Bool} {fs : FS} {src dst : FileName} {fs' : FS}
    (h : copyFile ok fs src dst = .ok fs') :
    ∃ c, fs src = some c ∧ ok = true ∧ fs' = fsWrite fs dst c := by
  unfold copyFile at h
  cases hsrc : fs src with
  | none => rw [hsrc] at h; cases ok <;> simp at h
  | some c =>
    rw [hsrc] at h
    cases ok with
    | false => simp at h
    | true => exact ⟨c, rfl, rfl, (by injection h with h'; exact h'.symm)⟩

/-- A successful unlink is the pointwise erase. -/
theorem unlink_ok_elim {ok : Bool} {fs : FS} {p : FileName} {fs' : FS}
    (h : unlink ok fs p = .ok fs') : fs' = fsErase fs p := by
  unfold unlink at h
  cases hp : fs p with
  | none => rw [hp] at h; cases ok <;> simp at h
  | some c =>
    rw [hp] at h
    cases ok with
    | false => simp at h
    | true => injection h with h'; exact h'.symm

/-- A path differs from its sidecar backup path. -/
theorem string_ne_append_backup (p : String) : p ≠ p ++ ".backup" := by
  intro h
  have hl := congrArg String.length h
  rw [String.length_append] at hl
  have h7 : (".backup" : String).length = 7 := rfl
  omega

/-- When the backup exists and the oracle allows the emergency copy, the
emergency restore puts the backup content back at the target path. -/
theorem emergencyRestore_filePath (o : FsOracle) (g : FS) (p bp : FileName)
    (hne : p ≠ bp) (hok : o.emergencyRestoreOk = true) (c : FileContent)
    (hbp : g bp = some c) :
    emergencyRestore o g p bp p = some c := by
  unfold emergencyRestore copyFile
  rw [hbp, hok]
  cases hu : unlink o.emergencyUnlinkOk (fsWrite g p c) bp with
  | error e => simp [hu, fsWrite_self]
  | ok g2 =>
    have hg2 : g2 = fsErase (fsWrite g p c) bp := unlink_ok_elim hu
    subst hg2
    simp [hu, fsErase_ne _ _ _ hne, fsWrite_self]

/-- C1: whenever `performSafeRename` returns an outcome with
`success = false`, the target file's content after the call equals its
content before the call, provided the emergency restore is allowed to
succeed (the one exception the specification admits) and the backend
steps do not touch the sidecar backup file; moreover, when the backend
rename succeeds but verification fails, the returned outcome is the
rename outcome with `success := false` and the explicit verification
error, and the file is restored from the backup. -/
theorem performSafeRename_conservation
    (o : FsOracle) (b : Backend) (filePath : FileName) (sug : NamingSuggestion) (fs : FS)
    (hrename : ∀ g : FS, StepResult.state (b.rename g) (filePath ++ ".backup")
                 = g (filePath ++ ".backup"))
    (hverify : ∀ g : FS, StepResult.state (b.verify g) (filePath ++ ".backup")
                 = g (filePath ++ ".backup"))
    (hemg : o.emergencyRestoreOk = true) :
    ((performSafeRename o b filePath sug fs).1.success = false →
      (performSafeRename o b filePath sug fs).2 filePath = fs filePath)
    ∧ (∀ (c : FileContent) (res : RenameResult) (fs2 fs3 : FS),
        o.backupOk = true → o.restoreVerifyFailOk = true → o.unlinkVerifyFailOk = true →
        fs filePath = some c →
        b.rename (fsWrite fs (filePath ++ ".backup") c) = .ok res fs2 →
        res.success = true →
        b.verify fs2 = .ok false fs3 →
        performSafeRename o b filePath sug fs
          = ({ res with
                 success := false
                 error := some "Verification failed after rename" },
             fsErase (fsWrite fs3 filePath c) (filePath ++ ".backup"))
        ∧ (performSafeRename o b filePath sug fs).2 filePath = fs filePath) := by
  have hne : filePath ≠ filePath ++ ".backup" := string_ne_append_backup filePath
  constructor
  · -- conservation for every failed outcome
    cases hc : copyFile o.backupOk fs filePath (filePath ++ ".backup") with
    | error e => simp [performSafeRename, hc]
    | ok fs1 =>
      obtain ⟨c, hsrc, hbok, hfs1⟩ := copyFile_ok_elim hc
      subst hfs1
      have hbp1 : fsWrite fs (filePath ++ ".backup") c (filePath ++ ".backup") = some c :=
        fsWrite_self fs (filePath ++ ".backup") c
      cases hr : b.rename (fsWrite fs (filePath ++ ".backup") c) with
      | thrown e fs2 =>
        have hbp2 : fs2 (filePath ++ ".backup") = some c := by
          have hh := hrename (fsWrite fs (filePath ++ ".backup") c)
          rw [hr] at hh
          simpa [StepResult.state, hbp1] using hh
        simp [performSafeRename, hc, hr,
          emergencyRestore_filePath o fs2 filePath _ hne hemg c hbp2, hsrc]
      | ok res fs2 =>
        have hbp2 : fs2 (filePath ++ ".backup") = some c := by
          have hh := hrename (fsWrite fs (filePath ++ ".backup") c)
          rw [hr] at hh
          simpa [StepResult.state, hbp1] using hh
        rcases Bool.eq_false_or_eq_true res.success with hsres | hsres
        · -- rename succeeded: verification path
          cases hv : b.verify fs2 with
          | thrown e fs3 =>
            have hbp3 : fs3 (filePath ++ ".backup") = some c := by
              have hh := hverify fs2
              rw [hv] at hh
              simpa [StepResult.state, hbp2] using hh
            simp [performSafeRename, hc, hr, hv, hsres,
              emergencyRestore_filePath o fs3 filePath _ hne hemg c hbp3, hsrc]
          | ok v fs3 =>
            have hbp3 : fs3 (filePath ++ ".backup") = some c := by
              have hh := hverify fs2
              rw [hv] at hh
              simpa [StepResult.state, hbp2] using hh
            rcases Bool.eq_false_or_eq_true v with hvres | hvres
            · -- verification passed: commit path
              cases hu : unlink o.unlinkSuccessOk fs3 (filePath ++ ".backup") with
              | error e =>
                simp [performSafeRename, hc, hr, hv, hsres, hvres, hu,
                  emergencyRestore_filePath o fs3 filePath _ hne hemg c hbp3, hsrc]
              | ok fs4 =>
                simp [performSafeRename, hc, hr, hv, hsres, hvres, hu]
            · -- verification failed: rollback path
              cases hrc : copyFile o.restoreVerifyFailOk fs3 (filePath ++ ".backup") filePath with
              | error e =>
                simp [performSafeRename, hc, hr, hv, hsres, hvres, hrc,
                  emergencyRestore_filePath o fs3 filePath _ hne hemg c hbp3, hsrc]
              | ok fs4 =>
                obtain ⟨c2, hsrc2, _, hfs4⟩ := copyFile_ok_elim hrc
                rw [hbp3] at hsrc2
                injection hsrc2 with hc2
                subst hc2
                subst hfs4
                have hbp4 : fsWrite fs3 filePath c (filePath ++ ".backup") = some c := by
                  rw [fsWrite_ne _ _ _ _ (Ne.symm hne), hbp3]
                cases hu : unlink o.unlinkVerifyFailOk (fsWrite fs3 filePath c)
                    (filePath ++ ".backup") with
                | error e =>
                  simp [performSafeRename, hc, hr, hv, hsres, hvres, hrc, hu,
                    emergencyRestore_filePath o (fsWrite fs3 filePath c) filePath _ hne hemg
                      c hbp4, hsrc]
                | ok fs5 =>
                  have hfs5 : fs5 = fsErase (fsWrite fs3 filePath c) (filePath ++ ".backup") :=
                    unlink_ok_elim hu
                  subst hfs5
                  simp [performSafeRename, hc, hr, hv, hsres, hvres, hrc, hu,
                    fsErase_ne _ _ _ hne, fsWrite_self, hsrc]
        · -- rename reported failure: restore path
          cases hrc : copyFile o.restoreRenameFailOk fs2 (filePath ++ ".backup") filePath with
          | error e =>
            simp [performSafeRename, hc, hr, hsres, hrc,
              emergencyRestore_filePath o fs2 filePath _ hne hemg c hbp2, hsrc]
          | ok fs3 =>
            obtain ⟨c2, hsrc2, _, hfs3⟩ := copyFile_ok_elim hrc
            rw [hbp2] at hsrc2
            injection hsrc2 with hc2
            subst hc2
            subst hfs3
            have hbp3 : fsWrite fs2 filePath c (filePath ++ ".backup") = some c := by
              rw [fsWrite_ne _ _ _ _ (Ne.symm hne), hbp2]
            cases hu : unlink o.unlinkRenameFailOk (fsWrite fs2 filePath c)
                (filePath ++ ".backup") with
            | error e =>
              simp [performSafeRename, hc, hr, hsres, hrc, hu,
                emergencyRestore_filePath o (fsWrite fs2 filePath c) filePath _ hne hemg
                  c hbp3, hsrc]
            | ok fs4 =>
              have hfs4 : fs4 = fsErase (fsWrite fs2 filePath c) (filePath ++ ".backup") :=
                unlink_ok_elim hu
              subst hfs4
              simp [performSafeRename, hc, hr, hsres, hrc, hu,
                fsErase_ne _ _ _ hne, fsWrite_self, hsrc]
  · -- verification-failure shape
    intro c res fs2 fs3 hbok hrvOk huvOk hsrc hren hres hver
    have hc : copyFile o.backupOk fs filePath (filePath ++ ".backup")
        = .ok (fsWrite fs (filePath ++ ".backup") c) := by
      unfold copyFile
      rw [hsrc, hbok]
    have hbp1 : fsWrite fs (filePath ++ ".backup") c (filePath ++ ".backup") = some c :=
      fsWrite_self fs (filePath ++ ".backup") c
    have hbp2 : fs2 (filePath ++ ".backup") = some c := by
      have hh := hrename (fsWrite fs (filePath ++ ".backup") c)
      rw [hren] at hh
      simpa [StepResult.state, hbp1] using hh
    have hbp3 : fs3 (filePath ++ ".backup") = some c := by
      have hh := hverify fs2
      rw [hver] at hh
      simpa [StepResult.state, hbp2] using hh
    have hrc : copyFile o.restoreVerifyFailOk fs3 (filePath ++ ".backup") filePath
        = .ok (fsWrite fs3 filePath c) := by
      unfold copyFile
      rw [hbp3, hrvOk]
    have hbp4 : fsWrite fs3 filePath c (filePath ++ ".backup") = some c := by
      rw [fsWrite_ne _ _ _ _ (Ne.symm hne), hbp3]
    have hu : unlink o.unlinkVerifyFailOk (fsWrite fs3 filePath c) (filePath ++ ".backup")
        = .ok (fsErase (fsWrite fs3 filePath c) (filePath ++ ".backup")) := by
      unfold unlink
      rw [hbp4, huvOk]
    have hmain : performSafeRename o b filePath sug fs
        = ({ res with
               success := false
               error := some "Verification failed after rename" },
           fsErase (fsWrite fs3 filePath c) (filePath ++ ".backup")) := by
      simp [performSafeRename, hc, hren, hres, hver, hrc, hu]
    refine ⟨hmain, ?_⟩
    rw [hmain]
    simp only
    rw [fsErase_ne _ _ _ hne, fsWrite_self, hsrc]

/-- Oracle allowing every file-system call. -/
def allOkOracle : FsOracle := ⟨true, true, true, true, true, true, true, true⟩

/-- Concrete suggestion used by the rename witnesses. -/
def wsug : NamingSuggestion :=
  { oldName := "data", newName := "userProfile", confidence := mkRat 9 10,
    rationale := "more descriptive name",
    safety := { isApiSurface := false, shouldAutofix := true, reason := "ok" },
    alternatives := ["profileData"] }

/-- Backend that rewrites file `p` and reports success, then fails
verification. -/
def wVerifyFailBackend (p : FileName) : Backend :=
  { rename := fun g =>
      .ok { success := true, file := p, oldName := "data", newName := "userProfile",
            referencesUpdated := 2, error := none } (fsWrite g p "renamed".data)
    verify := fun g => .ok false g }

/-- Single-file starting file system for the conservation witness. -/
def w1fs : FS := fun p => if p = "a.py" then some "original".data else none

/-- Witness for `performSafeRename_conservation`: a backend whose rename
mutates the file and whose verification fails; the returned outcome fails
and the file content is restored. -/
theorem performSafeRename_conservation_witness :
    (performSafeRename allOkOracle (wVerifyFailBackend "a.py") "a.py" wsug w1fs).1.success
      = false
    ∧ (performSafeRename allOkOracle (wVerifyFailBackend "a.py") "a.py" wsug w1fs).2 "a.py"
      = w1fs "a.py" :=
  ⟨by decide,
   (performSafeRename_conservation allOkOracle (wVerifyFailBackend "a.py") "a.py" wsug w1fs
      (fun g => by simp [wVerifyFailBackend, StepResult.state, fsWrite])
      (fun g => rfl) rfl).1 (by decide)⟩

/-- Backend that succeeds trivially on file `p` (no mutation) and passes
verification. -/
def wOkBackend (p : FileName) : Backend :=
  { rename := fun g =>
      .ok { success := true, file := p, oldName := "data", newName := "userProfile",
            referencesUpdated := 1, error := none } g
    verify := fun g => .ok true g }

/-- Backend that reports a failed rename (symbol not found) without
touching the file system. -/
def wFailBackend (p : FileName) : Backend :=
  { rename := fun g => .ok (failResult p "data" "userProfile" "Symbol not found") g
    verify := fun g => .ok true g }

/-- Three-file starting file system for the batch witness. -/
def w2fs : FS := fun p =>
  if p = "a.py" ∨ p = "b.py" ∨ p = "c.py" then some "data x".data else none

/-- Batch witness requests: success, failure, then a request that would
succeed but must not be attempted. -/
def w2reqs : List RenameRequest :=
  [{ filePath := "a.py", suggestion := wsug, backend := wOkBackend "a.py",
     oracle := allOkOracle },
   { filePath := "b.py", suggestion := wsug, backend := wFailBackend "b.py",
     oracle := allOkOracle },
   { filePath := "c.py", suggestion := wsug, backend := wOkBackend "c.py",
     oracle := allOkOracle }]

/-- Witness for `batchRename_failFast`: with the second request the first
failure, the batch returns exactly two outcomes. -/
theorem batchRename_failFast_witness :
    firstFailIdx (runAllRenames w2fs w2reqs).1 = some 1
    ∧ (batchRename w2fs w2reqs).1.length = 1 + 1 :=
  ⟨by decide, ((batchRename_failFast w2fs w2reqs).1 1 (by decide)).2⟩

/-- `Map.set` then `Map.get` on the same key yields the stored value. -/
theorem lookup_mapSet_self (k : String) (v : CacheEntry) (l : ResponseCache) :
    (mapSet k v l).lookup k = some v := by
  induction l with
  | nil => simp [mapSet, List.lookup]
  | cons p rest ih =>
    cases p with
    | mk pk pv =>
      by_cases h : pk = k
      · subst h
        simp [mapSet, List.lookup]
      · simp only [mapSet, if_neg h, List.lookup]
        have hbeq : (k == pk) = false := by
          simp [h]
          exact fun hk => h hk.symm
        rw [hbeq]
        exact ih

/-- A value found by `lookup` is one of the stored values. -/
theorem lookup_mem_cache (l : ResponseCache) (k : String) (v : CacheEntry)
    (h : l.lookup k = some v) : ∃ k', (k', v) ∈ l := by
  induction l with
  | nil => simp [List.lookup] at h
  | cons p rest ih =>
    cases p with
    | mk pk pv =>
      simp only [List.lookup] at h
      cases hbeq : k == pk with
      | true =>
        rw [hbeq] at h
        injection h with h'
        subst h'
        exact ⟨pk, by simp⟩
      | false =>
        rw [hbeq] at h
        obtain ⟨k', hk'⟩ := ih h
        exact ⟨k', by simp [hk']⟩

/-- A value found by `lookup` in the pricing table is one of its rows. -/
theorem lookup_mem_pricing (l : List (String × ℚ × ℚ)) (k : String) (v : ℚ × ℚ)
    (h : l.lookup k = some v) : v ∈ l.map Prod.snd := by
  induction l with
  | nil => simp [List.lookup] at h
  | cons p rest ih =>
    cases p with
    | mk pk pv =>
      simp only [List.lookup] at h
      cases hbeq : k == pk with
      | true =>
        rw [hbeq] at h
        injection h with h'
        subst h'
        simp
      | false =>
        rw [hbeq] at h
        simp [ih h]

/-- Every pricing row, and the default row, is non-negative. -/
theorem lookup_pricing_nonneg (model : String) :
    0 ≤ ((MODEL_PRICING.lookup model).getD (mkRat 15 100, mkRat 60 100)).1
    ∧ 0 ≤ ((MODEL_PRICING.lookup model).getD (mkRat 15 100, mkRat 60 100)).2 := by
  cases h : MODEL_PRICING.lookup model with
  | none => simp only [h, Option.getD_none]; exact ⟨by decide, by decide⟩
  | some p =>
    have hmem := lookup_mem_pricing MODEL_PRICING model p h
    simp only [h, Option.getD_some]
    simp only [ MODEL_PRICING, List.map_cons, List.map_nil, List.mem_cons,
      List.not_mem_nil, or_false] at hmem
    rcases hmem with hp | hp | hp | hp <;> subst hp <;> exact ⟨by decide, by decide⟩

/-- `calculateCost` is never negative. -/
theorem calculateCost_nonneg (model : String) (i o : Nat) :
    0 ≤ calculateCost model i o := by
  unfold calculateCost
  obtain ⟨h1, h2⟩ := lookup_pricing_nonneg model
  have hi : (0 : ℚ) ≤ mkRat i 1000000 := by
    rw [Rat.mkRat_eq_div]
    positivity
  have ho : (0 : ℚ) ≤ mkRat o 1000000 := by
    rw [Rat.mkRat_eq_div]
    positivity
  exact add_nonneg (mul_nonneg hi h1) (mul_nonneg ho h2)

/-- When the retry loop returns a suggestion, the suggestion passed the
validity check, it was cached under the key with the call's timestamp and
the default TTL, the api-call counter was incremented exactly once, and
the token and cost counters did not decrease. -/
theorem askLLMGo_some (cfg : LLMConfig) (parse : String → Option NamingSuggestion)
    (oracle : Nat → AttemptResult) (now : Nat) (key : String) (st : ClientState) :
    ∀ (fuel attempt : Nat) (s : NamingSuggestion) (st' : ClientState) (n : Nat),
      askLLMGo cfg parse oracle now key st attempt fuel = (some s, st', n) →
      isValidSuggestion s = true
      ∧ st'.cache = cacheResponse now key s st.cache
      ∧ st'.stats.apiCalls = st.stats.apiCalls + 1
      ∧ st.stats.totalTokens ≤ st'.stats.totalTokens
      ∧ st.stats.estimatedCost ≤ st'.stats.estimatedCost := by
  intro fuel
  induction fuel with
  | zero =>
    intro attempt s st' n h
    simp [askLLMGo] at h
  | succ f ih =>
    intro attempt s st' n h
    cases horacle : oracle attempt with
    | thrown =>
      rcases hres : askLLMGo cfg parse oracle now key st (attempt + 1) f with ⟨ro, rst, rn⟩
      simp [askLLMGo, horacle, hres] at h
      obtain ⟨h1, h2, h3⟩ := h
      subst h1; subst h2
      exact ih (attempt + 1) s rst rn hres
    | response content usage =>
      cases content with
      | none =>
        rcases hres : askLLMGo cfg parse oracle now key st (attempt + 1) f with ⟨ro, rst, rn⟩
        simp [askLLMGo, horacle, hres] at h
        obtain ⟨h1, h2, h3⟩ := h
        subst h1; subst h2
        exact ih (attempt + 1) s rst rn hres
      | some str =>
        cases hparse : parse str with
        | none =>
          rcases hres : askLLMGo cfg parse oracle now key st (attempt + 1) f with ⟨ro, rst, rn⟩
          simp [askLLMGo, horacle, hparse, hres] at h
          obtain ⟨h1, h2, h3⟩ := h
          subst h1; subst h2
          exact ih (attempt + 1) s rst rn hres
        | some sug =>
          cases hval : isValidSuggestion sug with
          | false =>
            simp [askLLMGo, horacle, hparse, hval] at h
          | true =>
            simp [askLLMGo, horacle, hparse, hval] at h
            obtain ⟨h1, h2, h3⟩ := h
            subst h1
            refine ⟨hval, ?_, ?_, ?_, ?_⟩
            · rw [← h2]
            · rw [← h2]
              cases usage <;> simp
            · rw [← h2]
              cases usage <;> simp
            · rw [← h2]
              cases usage with
              | none => simp
              | some u =>
                simp
                have := calculateCost_nonneg cfg.model u.prompt_tokens u.completion_tokens
                linarith

/-- With at least one attempt of fuel the retry loop issues at least one
external request. -/
theorem askLLMGo_requests_pos (cfg : LLMConfig) (parse : String → Option NamingSuggestion)
    (oracle : Nat → AttemptResult) (now : Nat) (key : String) (st : ClientState) :
    ∀ (fuel attempt : Nat), 1 ≤ fuel →
      1 ≤ (askLLMGo cfg parse oracle now key st attempt fuel).2.2 := by
  intro fuel attempt hfuel
  cases fuel with
  | zero => omega
  | succ f =>
    cases horacle : oracle attempt with
    | thrown => simp [askLLMGo, horacle]
    | response content usage =>
      cases content with
      | none => simp [askLLMGo, horacle]
      | some str =>
        cases hparse : parse str with
        | none => simp [askLLMGo, horacle, hparse]
        | some sug =>
          cases hval : isValidSuggestion sug <;> simp [askLLMGo, horacle, hparse, hval]

/-- A live cache entry is returned unchanged. -/
theorem getCachedResponse_hit {now : Nat} {cache : ResponseCache} {key : String}
    {e : CacheEntry} (hl : cache.lookup key = some e)
    (hlive : ¬ (e.ttl < now - e.timestamp)) :
    getCachedResponse now cache key = (some e.suggestion, cache) := by
  unfold getCachedResponse
  rw [hl]
  simp [hlive]

/-- An expired cache entry is lazily deleted and reported as a miss. -/
theorem getCachedResponse_expired {now : Nat} {cache : ResponseCache} {key : String}
    {e : CacheEntry} (hl : cache.lookup key = some e)
    (hexp : e.ttl < now - e.timestamp) :
    getCachedResponse now cache key = (none, mapDelete key cache) := by
  unfold getCachedResponse
  rw [hl]
  simp [hexp]

/-- A cache hit comes from a live stored entry and leaves the cache
unchanged. -/
theorem getCachedResponse_some_elim {now : Nat} {cache : ResponseCache} {key : String}
    {s : NamingSuggestion} {cache' : ResponseCache}
    (h : getCachedResponse now cache key = (some s, cache')) :
    ∃ e : CacheEntry, cache.lookup key = some e ∧ ¬ (e.ttl < now - e.timestamp)
      ∧ e.suggestion = s ∧ cache' = cache := by
  unfold getCachedResponse at h
  cases hl : cache.lookup key with
  | none => rw [hl] at h; simp at h
  | some e =>
    rw [hl] at h
    by_cases hexp : e.ttl < now - e.timestamp
    · simp [hexp] at h
    · simp [hexp] at h
      exact ⟨e, rfl, hexp, h.1, h.2.symm⟩

/-- `askLLM` on a live cache entry returns the cached suggestion with no
external request and no state change. -/
theorem askLLM_hit (cfg : LLMConfig) (parse : String → Option NamingSuggestion)
    (oracle : Nat → AttemptResult) (t2 : Nat) (context : NamingContext)
    (st : ClientState) (e : CacheEntry)
    (hl : st.cache.lookup (getCacheKey context) = some e)
    (hlive : ¬ (e.ttl < t2 - e.timestamp)) :
    askLLM cfg parse oracle t2 context st = (some e.suggestion, st, 0) := by
  simp [askLLM, getCachedResponse_hit hl hlive]

/-- Evaluation of `askLLM` on a cache hit, phrased by the value of
`getCachedResponse`. -/
theorem askLLM_eval_hit {now : Nat} {context : NamingContext} {st : ClientState}
    {cached : NamingSuggestion} {cache' : ResponseCache}
    (cfg : LLMConfig) (parse : String → Option NamingSuggestion)
    (oracle : Nat → AttemptResult)
    (h : getCachedResponse now st.cache (getCacheKey context) = (some cached, cache')) :
    askLLM cfg parse oracle now context st = (some cached, { st with cache := cache' }, 0) := by
  simp [askLLM, h]

/-- Evaluation of `askLLM` on a cache miss, phrased by the value of
`getCachedResponse`. -/
theorem askLLM_eval_miss {now : Nat} {context : NamingContext} {st : ClientState}
    {cache' : ResponseCache}
    (cfg : LLMConfig) (parse : String → Option NamingSuggestion)
    (oracle : Nat → AttemptResult)
    (h : getCachedResponse now st.cache (getCacheKey context) = (none, cache')) :
    askLLM cfg parse oracle now context st
      = askLLMGo cfg parse oracle now (getCacheKey context) { st with cache := cache' } 0
          (cfg.maxRetries + 1) := by
  simp [askLLM, h]

/-- C4: after any `ask` call that returns a suggestion, the cache holds a
live entry for the context's key with that suggestion, and any second
`ask` for the same context within the entry's TTL window returns an equal
suggestion with zero external requests and an unchanged client state (so
`apiCalls` is not incremented) — regardless of the configuration, parser
and endpoint supplied to the second call; and a lookup after the TTL has
elapsed lazily evicts the entry and proceeds exactly as a miss, issuing
at least one external request and incrementing `apiCalls` by one when it
returns a suggestion. -/
theorem askLLM_cache_ttl :
    (∀ (cfg : LLMConfig) (parse : String → Option NamingSuggestion)
        (oracle : Nat → AttemptResult) (now : Nat) (context : NamingContext)
        (st st1 : ClientState) (s : NamingSuggestion) (k : Nat),
      askLLM cfg parse oracle now context st = (some s, st1, k) →
      ∃ e : CacheEntry, st1.cache.lookup (getCacheKey context) = some e
        ∧ e.suggestion = s
        ∧ ∀ (cfg2 : LLMConfig) (parse2 : String → Option NamingSuggestion)
            (oracle2 : Nat → AttemptResult) (t2 : Nat),
            t2 - e.timestamp ≤ e.ttl →
            askLLM cfg2 parse2 oracle2 t2 context st1 = (some s, st1, 0))
    ∧ (∀ (cfg : LLMConfig) (parse : String → Option NamingSuggestion)
        (oracle : Nat → AttemptResult) (t2 : Nat) (context : NamingContext)
        (st : ClientState) (e : CacheEntry),
      st.cache.lookup (getCacheKey context) = some e →
      e.ttl < t2 - e.timestamp →
      askLLM cfg parse oracle t2 context st
        = askLLMGo cfg parse oracle t2 (getCacheKey context)
            { st with cache := mapDelete (getCacheKey context) st.cache } 0 (cfg.maxRetries + 1)
      ∧ 1 ≤ (askLLM cfg parse oracle t2 context st).2.2
      ∧ ∀ (s : NamingSuggestion) (st2 : ClientState) (n : Nat),
          askLLM cfg parse oracle t2 context st = (some s, st2, n) →
          st2.stats.apiCalls = st.stats.apiCalls + 1) := by
  constructor
  · intro cfg parse oracle now context st st1 s k h
    rcases hhit : getCachedResponse now st.cache (getCacheKey context) with ⟨ho, hcache⟩
    cases ho with
    | some cached =>
      rw [askLLM_eval_hit cfg parse oracle hhit] at h
      obtain ⟨e, hl, hlive, hsug, hcacheEq⟩ := getCachedResponse_some_elim hhit
      simp at h
      obtain ⟨h1, h2, h3⟩ := h
      have hlook : st1.cache.lookup (getCacheKey context) = some e := by
        rw [← h2]
        simpa [hcacheEq] using hl
      refine ⟨e, hlook, by rw [hsug, h1], ?_⟩
      intro cfg2 parse2 oracle2 t2 ht2
      have hres := askLLM_hit cfg2 parse2 oracle2 t2 context st1 e hlook (Nat.not_lt.mpr ht2)
      rw [hres, hsug, h1]
    | none =>
      rw [askLLM_eval_miss cfg parse oracle hhit] at h
      obtain ⟨hval, hcache1, hapi, _, _⟩ :=
        askLLMGo_some cfg parse oracle now (getCacheKey context)
          { st with cache := hcache } (cfg.maxRetries + 1) 0 s st1 k h
      have hlook : st1.cache.lookup (getCacheKey context)
          = some ⟨s, now, CACHE_TTL⟩ := by
        rw [hcache1]
        exact lookup_mapSet_self _ _ _
      refine ⟨⟨s, now, CACHE_TTL⟩, hlook, rfl, ?_⟩
      intro cfg2 parse2 oracle2 t2 ht2
      exact askLLM_hit cfg2 parse2 oracle2 t2 context st1 ⟨s, now, CACHE_TTL⟩ hlook
        (Nat.not_lt.mpr ht2)
  · intro cfg parse oracle t2 context st e hl hexp
    have hg := getCachedResponse_expired hl hexp
    have hask := askLLM_eval_miss cfg parse oracle hg
    refine ⟨hask, ?_, ?_⟩
    · rw [hask]
      exact askLLMGo_requests_pos cfg parse oracle t2 (getCacheKey context)
        { st with cache := mapDelete (getCacheKey context) st.cache }
        (cfg.maxRetries + 1) 0 (by omega)
    · intro s st2 n h2
      rw [hask] at h2
      have := (askLLMGo_some cfg parse oracle t2 (getCacheKey context)
        { st with cache := mapDelete (getCacheKey context) st.cache }
        (cfg.maxRetries + 1) 0 s st2 n h2).2.2.1
      simpa using this

/-- Concrete configuration for the client witnesses (`maxRetries = 0`). -/
def c4cfg : LLMConfig :=
  { apiKey := "key", model := "gpt-4o-mini", maxTokens := 1000,
    temperature := mkRat 3 10, maxRetries := 0 }

/-- Concrete parser mapping the fixed response text to the witness
suggestion. -/
def c4parse : String → Option NamingSuggestion := fun content =>
  if content = "RESP" then some wsug else none

/-- Endpoint oracle that always answers with the fixed response text and
no usage block. -/
def c4oracle : Nat → AttemptResult := fun _ => .response (some "RESP") none

/-- Concrete symbol context for the client witnesses. -/
def c4ctx : NamingContext :=
  { file := "a.ts", oldName := "data", declaration := "const data = fetchUser();" }

/-- Fresh client state. -/
def c4st0 : ClientState :=
  { cache := [], stats := { totalTokens := 0, estimatedCost := 0, apiCalls := 0,
                            cacheHitRate := 0 } }

/-- Client state after the first witness call: one cached entry and one
api call. -/
def c4st1 : ClientState :=
  { cache := [("a.ts:data:const data = fetchUser();", ⟨wsug, 0, 3600000⟩)],
    stats := { totalTokens := 0, estimatedCost := 0, apiCalls := 1, cacheHitRate := 0 } }

/-- Witness for `askLLM_cache_ttl`: a concrete first call returns the
suggestion with one external request, and the theorem yields the live
cache entry and the no-request replay guarantee. -/
theorem askLLM_cache_ttl_witness :
    askLLM c4cfg c4parse c4oracle 0 c4ctx c4st0 = (some wsug, c4st1, 1)
    ∧ ∃ e : CacheEntry, c4st1.cache.lookup (getCacheKey c4ctx) = some e
        ∧ e.suggestion = wsug
        ∧ ∀ (cfg2 : LLMConfig) (parse2 : String → Option NamingSuggestion)
            (oracle2 : Nat → AttemptResult) (t2 : Nat),
            t2 - e.timestamp ≤ e.ttl →
            askLLM cfg2 parse2 oracle2 t2 c4ctx c4st1 = (some wsug, c4st1, 0) :=
  ⟨by decide,
   askLLM_cache_ttl.1 c4cfg c4parse c4oracle 0 c4ctx c4st0 c4st1 wsug 1 (by decide)⟩

/-- C7: a response that parses to a suggestion violating the
`NamingSuggestion` invariants makes the retry loop return `none`
immediately — one external request, no retry, no caching, no counter
update; at the top level an `ask` whose first attempt parses to an
invalid suggestion returns `none` with exactly one request; and a
suggestion whose old and new names coincide is always invalid. -/
theorem askLLM_invalid_discarded :
    (∀ (cfg : LLMConfig) (parse : String → Option NamingSuggestion)
        (oracle : Nat → AttemptResult) (now : Nat) (key : String) (st : ClientState)
        (attempt fuel : Nat) (content : String) (usage : Option Usage)
        (sug : NamingSuggestion),
      oracle attempt = .response (some content) usage →
      parse content = some sug →
      isValidSuggestion sug = false →
      askLLMGo cfg parse oracle now key st attempt (fuel + 1) = (none, st, 1))
    ∧ (∀ (cfg : LLMConfig) (parse : String → Option NamingSuggestion)
        (oracle : Nat → AttemptResult) (now : Nat) (context : NamingContext)
        (st : ClientState) (cache' : ResponseCache) (content : String)
        (usage : Option Usage) (sug : NamingSuggestion),
      getCachedResponse now st.cache (getCacheKey context) = (none, cache') →
      oracle 0 = .response (some content) usage →
      parse content = some sug →
      isValidSuggestion sug = false →
      askLLM cfg parse oracle now context st = (none, { st with cache := cache' }, 1))
    ∧ (∀ sug : NamingSuggestion, sug.oldName = sug.newName →
        isValidSuggestion sug = false) := by
  refine ⟨?_, ?_, ?_⟩
  · intro cfg parse oracle now key st attempt fuel content usage sug horacle hparse hval
    simp [askLLMGo, horacle, hparse, hval]
  · intro cfg parse oracle now context st cache' content usage sug hmiss horacle hparse hval
    rw [askLLM_eval_miss cfg parse oracle hmiss]
    simp [askLLMGo, horacle, hparse, hval]
  · intro sug h
    unfold isValidSuggestion
    simp [h]

/-- Scenario E suggestion: structurally valid JSON whose rename is a
no-op. -/
def c7sug : NamingSuggestion :=
  { oldName := "data", newName := "data", confidence := mkRat 9 10,
    rationale := "the same name as before!",
    safety := { isApiSurface := false, shouldAutofix := true, reason := "r" },
    alternatives := ["d"] }

/-- Parser mapping the fixed response text to the Scenario E
suggestion. -/
def c7parse : String → Option NamingSuggestion := fun content =>
  if content = "RESP" then some c7sug else none

/-- Witness for `askLLM_invalid_discarded` at the Scenario E input. -/
theorem askLLM_invalid_discarded_witness :
    isValidSuggestion c7sug = false
    ∧ askLLM c4cfg c7parse c4oracle 0 c4ctx c4st0 = (none, c4st0, 1) :=
  ⟨askLLM_invalid_discarded.2.2 c7sug rfl,
   askLLM_invalid_discarded.2.1 c4cfg c7parse c4oracle 0 c4ctx c4st0 [] "RESP" none c7sug
     (by decide) (by decide) (by decide) (askLLM_invalid_discarded.2.2 c7sug rfl)⟩

/-- A suggestion passing the validity check has confidence at least
0.3. -/
theorem isValidSuggestion_conf {s : NamingSuggestion}
    (h : isValidSuggestion s = true) : mkRat 3 10 ≤ s.confidence := by
  unfold isValidSuggestion at h
  by_cases h1 : s.oldName = s.newName
  · simp [h1] at h
  · by_cases h2 : s.confidence < mkRat 3 10
    · simp [h1, h2] at h
    · exact not_lt.mp h2

/-- C8: every suggestion collected for review has confidence at least
0.3 and every autofix-queued suggestion is one of the collected ones
(with the same floor) — the gate only decides among collected
suggestions; moreover `ask` itself never returns a suggestion with
confidence below 0.3 (given the cache only ever holds validated
suggestions, which is how entries are inserted). -/
theorem confidence_floor :
    (∀ results : List (Option NamingSuggestion),
      (∀ s ∈ (collectSuggestions results).1, mkRat 3 10 ≤ s.confidence)
      ∧ ∀ s ∈ (collectSuggestions results).2,
          s ∈ (collectSuggestions results).1 ∧ mkRat 3 10 ≤ s.confidence)
    ∧ (∀ (cfg : LLMConfig) (parse : String → Option NamingSuggestion)
        (oracle : Nat → AttemptResult) (now : Nat) (context : NamingContext)
        (st st1 : ClientState) (s : NamingSuggestion) (k : Nat),
      (∀ p ∈ st.cache, mkRat 3 10 ≤ p.2.suggestion.confidence) →
      askLLM cfg parse oracle now context st = (some s, st1, k) →
      mkRat 3 10 ≤ s.confidence) := by
  constructor
  · have aux : ∀ (results : List (Option NamingSuggestion))
        (acc : List NamingSuggestion × List NamingSuggestion),
        ((∀ s ∈ acc.1, mkRat 3 10 ≤ s.confidence)
          ∧ ∀ s ∈ acc.2, s ∈ acc.1 ∧ mkRat 3 10 ≤ s.confidence) →
        ((∀ s ∈ (results.foldl collectStep acc).1, mkRat 3 10 ≤ s.confidence)
          ∧ ∀ s ∈ (results.foldl collectStep acc).2,
              s ∈ (results.foldl collectStep acc).1 ∧ mkRat 3 10 ≤ s.confidence) := by
      intro results
      induction results with
      | nil => intro acc hinv; simpa using hinv
      | cons r rest ih =>
        intro acc hinv
        rw [List.foldl_cons]
        apply ih
        cases r with
        | none => simpa [collectStep] using hinv
        | some s =>
          by_cases hc : mkRat 3 10 ≤ s.confidence
          · constructor
            · intro x hx
              simp [collectStep, hc] at hx
              rcases hx with hx | rfl
              · exact hinv.1 x hx
              · exact hc
            · intro x hx
              by_cases hg : shouldAutoRename s = true
              · simp only [collectStep, if_pos hc, hg, if_true] at hx ⊢
                rw [List.mem_append] at hx
                rcases hx with hx | hx
                · obtain ⟨hmem, hconf⟩ := hinv.2 x hx
                  exact ⟨List.mem_append_left _ hmem, hconf⟩
                · rw [List.mem_singleton] at hx
                  subst hx
                  exact ⟨List.mem_append_right _ (List.mem_singleton_self x), hc⟩
              · simp only [collectStep, if_pos hc, hg, if_false, Bool.false_eq_true] at hx ⊢
                obtain ⟨hmem, hconf⟩ := hinv.2 x hx
                exact ⟨List.mem_append_left _ hmem, hconf⟩
          · simpa [collectStep, hc] using hinv
    intro results
    exact aux results ([], []) (by simp)
  · intro cfg parse oracle now context st st1 s k hcacheInv h
    rcases hhit : getCachedResponse now st.cache (getCacheKey context) with ⟨ho, hcache⟩
    cases ho with
    | some cached =>
      rw [askLLM_eval_hit cfg parse oracle hhit] at h
      obtain ⟨e, hl, hlive, hsug, hcacheEq⟩ := getCachedResponse_some_elim hhit
      simp at h
      obtain ⟨h1, h2, h3⟩ := h
      obtain ⟨k', hk'⟩ := lookup_mem_cache st.cache (getCacheKey context) e hl
      have := hcacheInv (k', e) hk'
      rw [hsug, h1] at this
      exact this
    | none =>
      rw [askLLM_eval_miss cfg parse oracle hhit] at h
      have hval := (askLLMGo_some cfg parse oracle now (getCacheKey context)
        { st with cache := hcache } (cfg.maxRetries + 1) 0 s st1 k h).1
      exact isValidSuggestion_conf hval

/-- Witness for `confidence_floor` at the concrete first-call run. -/
theorem confidence_floor_witness :
    (∀ p ∈ c4st0.cache, mkRat 3 10 ≤ p.2.suggestion.confidence)
    ∧ mkRat 3 10 ≤ wsug.confidence :=
  ⟨by simp [c4st0],
   confidence_floor.2 c4cfg c4parse c4oracle 0 c4ctx c4st0 c4st1 wsug 1
     (by simp [c4st0]) (by decide)⟩

/-- The retry loop never decreases the token, cost or api-call
counters. -/
theorem askLLMGo_stats_mono (cfg : LLMConfig) (parse : String → Option NamingSuggestion)
    (oracle : Nat → AttemptResult) (now : Nat) (key : String) (st : ClientState) :
    ∀ (fuel attempt : Nat),
      st.stats.totalTokens
          ≤ (askLLMGo cfg parse oracle now key st attempt fuel).2.1.stats.totalTokens
      ∧ st.stats.estimatedCost
          ≤ (askLLMGo cfg parse oracle now key st attempt fuel).2.1.stats.estimatedCost
      ∧ st.stats.apiCalls
          ≤ (askLLMGo cfg parse oracle now key st attempt fuel).2.1.stats.apiCalls := by
  intro fuel
  induction fuel with
  | zero =>
    intro attempt
    simp [askLLMGo]
  | succ f ih =>
    intro attempt
    cases horacle : oracle attempt with
    | thrown => simpa [askLLMGo, horacle] using ih (attempt + 1)
    | response content usage =>
      cases content with
      | none => simpa [askLLMGo, horacle] using ih (attempt + 1)
      | some str =>
        cases hparse : parse str with
        | none => simpa [askLLMGo, horacle, hparse] using ih (attempt + 1)
        | some sug =>
          cases hval : isValidSuggestion sug with
          | false => simp [askLLMGo, horacle, hparse, hval]
          | true =>
            cases usage with
            | none => simp [askLLMGo, horacle, hparse, hval]
            | some u =>
              have hcost := calculateCost_nonneg cfg.model u.prompt_tokens u.completion_tokens
              simpa [askLLMGo, horacle, hparse, hval] using hcost

/-- C9 (amended): `ask` calls never decrease `totalTokens`,
`estimatedCost` or `apiCalls`, and reading the stats or clearing the
cache leaves all three unchanged; `cacheHitRate` is excluded because it
is a derived ratio recomputed on each read and can drop (see the
counterexample). -/
theorem costStats_monotone :
    (∀ (cfg : LLMConfig) (parse : String → Option NamingSuggestion)
        (oracle : Nat → AttemptResult) (now : Nat) (context : NamingContext)
        (st : ClientState),
      st.stats.totalTokens
          ≤ (askLLM cfg parse oracle now context st).2.1.stats.totalTokens
      ∧ st.stats.estimatedCost
          ≤ (askLLM cfg parse oracle now context st).2.1.stats.estimatedCost
      ∧ st.stats.apiCalls
          ≤ (askLLM cfg parse oracle now context st).2.1.stats.apiCalls)
    ∧ (∀ st : ClientState,
      (getCostStats st).2.stats.totalTokens = st.stats.totalTokens
      ∧ (getCostStats st).2.stats.estimatedCost = st.stats.estimatedCost
      ∧ (getCostStats st).2.stats.apiCalls = st.stats.apiCalls)
    ∧ (∀ st : ClientState, (clearCache st).stats = st.stats) := by
  refine ⟨?_, ?_, ?_⟩
  · intro cfg parse oracle now context st
    rcases hhit : getCachedResponse now st.cache (getCacheKey context) with ⟨ho, hcache⟩
    cases ho with
    | some cached =>
      rw [askLLM_eval_hit cfg parse oracle hhit]
      simp
    | none =>
      rw [askLLM_eval_miss cfg parse oracle hhit]
      simpa using askLLMGo_stats_mono cfg parse oracle now (getCacheKey context)
        { st with cache := hcache } (cfg.maxRetries + 1) 0
  · intro st
    simp [getCostStats]
  · intro st
    simp [clearCache]

/-- Endpoint oracle whose every attempt throws. -/
def c9oracleFail : Nat → AttemptResult := fun _ => .thrown

/-- State after the concrete first call (one cached entry, one api
call). -/
def c9st1 : ClientState := (askLLM c4cfg c4parse c4oracle 0 c4ctx c4st0).2.1

/-- State after reading the stats once (hit rate recomputed to 1/2). -/
def c9st2 : ClientState := (getCostStats c9st1).2

/-- State after a second `ask` for the same context one millisecond past
the TTL: the entry is lazily evicted, the single retry throws, so the
cache is empty while `apiCalls` stays 1.  Only `ask` calls and stats
reads occur — no reset. -/
def c9st3 : ClientState := (askLLM c4cfg c4parse c9oracleFail 3600001 c4ctx c9st2).2.1

/-- C9 counterexample: between two explicit resets, a stats read after
the lazy eviction reports a strictly smaller `cacheHitRate` than the
earlier read, so `cacheHitRate` is not monotonically accumulated. -/
theorem cacheHitRate_decreases_counterexample :
    (getCostStats c9st3).1.cacheHitRate < (getCostStats c9st2).1.cacheHitRate := by
  decide
